import Mathlib

/-!
Verification of the channel/address name-resolution layer of the
sui-stack-messaging-sdk (`packages/messaging/src/utils/channelResolution.ts`
and the SuiNS address-resolution module).

JavaScript strings are modelled as `List Char` (ASCII fragment: `trim`
removes the ASCII whitespace characters, `toLowerCase` lowers `A`-`Z`).
JavaScript `Map` objects are modelled as insertion-ordered association
lists: `set` replaces the value of an existing key in place and appends
a fresh key at the end; `delete` removes the entry; `size` is the length.
JavaScript string truthiness (`if (s)` is false for `undefined` and for
the empty string) is modelled explicitly at each use site.
-/

-- ===== Definitions (shallow embedding of the source) =====

set_option linter.unnecessarySimpa false

deriving instance DecidableEq for Except

abbrev JSString := List Char

abbrev SMap := List (JSString × JSString)

/-- `Map.get`: value of the first entry with the given key, if any. -/
def mapGet : SMap → JSString → Option JSString
  | [], _ => none
  | (k, v) :: rest, key => if k = key then some v else mapGet rest key

/-- `Map.set`: replace the value of an existing key in place, else append. -/
def mapSet : SMap → JSString → JSString → SMap
  | [], key, val => [(key, val)]
  | (k, v) :: rest, key, val =>
      if k = key then (key, val) :: rest else (k, v) :: mapSet rest key val

/-- `Map.delete`: remove the entries with the given key. -/
def mapDelete (m : SMap) (key : JSString) : SMap :=
  m.filter (fun e => e.1 ≠ key)

/-- ASCII whitespace, the fragment of the JavaScript `trim` character class
used in this development. -/
def jsIsWhitespace (c : Char) : Bool :=
  c.toNat = 9 ∨ c.toNat = 10 ∨ c.toNat = 11 ∨ c.toNat = 12 ∨ c.toNat = 13 ∨ c.toNat = 32

/-- `String.prototype.toLowerCase` on one character (ASCII fragment). -/
def jsLowerChar (c : Char) : Char :=
  if 65 ≤ c.toNat ∧ c.toNat ≤ 90 then Char.ofNat (c.toNat + 32) else c

/-- `String.prototype.toLowerCase` (ASCII fragment). -/
def jsToLower (s : JSString) : JSString := s.map jsLowerChar

/-- `String.prototype.trim` (ASCII whitespace fragment). -/
def jsTrim (s : JSString) : JSString :=
  ((s.dropWhile jsIsWhitespace).reverse.dropWhile jsIsWhitespace).reverse

/-- Does the string start with `#`? (`input.startsWith('#')`) -/
def startsWithHash : JSString → Bool
  | [] => false
  | c :: _ => c = '#'

/-- Does the string start with `0x`? (`input.startsWith('0x')`) -/
def startsWith0x : JSString → Bool
  | '0' :: 'x' :: _ => true
  | _ => false

/-- `isChannelName` from `channelResolution.ts`: empty strings are not names,
`#`-led strings are names, `0x`-led strings are not, everything else is. -/
def isChannelName (input : JSString) : Bool :=
  if input = [] then false
  else if startsWithHash input then true
  else if startsWith0x input then false
  else true

/-- `normalizeChannelName` from `channelResolution.ts`: trim, lower-case,
then strip one leading `#` if present. -/
def normalizeChannelName (name : JSString) : JSString :=
  if startsWithHash (jsToLower (jsTrim name)) then (jsToLower (jsTrim name)).drop 1
  else jsToLower (jsTrim name)

/-- `formatChannelName` from `channelResolution.ts`: `'#' + normalized`. -/
def formatChannelName (name : JSString) : JSString :=
  '#' :: normalizeChannelName name

/-- The two private maps of `LocalChannelRegistry`. -/
structure RegistryState where
  nameToId : SMap
  idToName : SMap
deriving DecidableEq, Repr

/-- The empty registry (`new LocalChannelRegistry()`). -/
def emptyRegistry : RegistryState := ⟨[], []⟩

/-- Message of the `resolve` not-found error:
`Channel name not found: ${formatChannelName(nameOrId)}`. -/
def channelNotFoundMsg (nameOrId : JSString) : JSString :=
  "Channel name not found: ".data ++ formatChannelName nameOrId

/-- Message of the `register` conflict error: `Channel name
${formatChannelName(name)} is already registered to ${existingId}`. -/
def alreadyRegisteredMsg (name existingId : JSString) : JSString :=
  "Channel name ".data ++ formatChannelName name ++
    " is already registered to ".data ++ existingId

/-- `LocalChannelRegistry.resolve`.  Note the source tests the looked-up id
with `if (!channelId)`, which is true both when the key is absent and when
the bound id is the empty string. -/
def resolve (st : RegistryState) (nameOrId : JSString) : Except JSString JSString :=
  if isChannelName nameOrId = false then Except.ok nameOrId
  else
    match mapGet st.nameToId (normalizeChannelName nameOrId) with
    | some channelId =>
        if channelId = [] then Except.error (channelNotFoundMsg nameOrId)
        else Except.ok channelId
    | none => Except.error (channelNotFoundMsg nameOrId)

/-- The unconditional tail of `LocalChannelRegistry.register`: retire the
id's previous alias (when truthy and different) and write both directions. -/
def registerCommit (st : RegistryState) (normalized channelId : JSString) :
    RegistryState :=
  let st1 :=
    match mapGet st.idToName channelId with
    | some existingName =>
        if existingName ≠ [] ∧ existingName ≠ normalized then
          { st with nameToId := mapDelete st.nameToId existingName }
        else st
    | none => st
  { nameToId := mapSet st1.nameToId normalized channelId,
    idToName := mapSet st1.idToName channelId normalized }

/-- `LocalChannelRegistry.register`.  The conflict guard is
`if (existingId && existingId !== channelId) throw`, so an existing binding
to the empty string is not treated as a conflict. -/
def register (st : RegistryState) (name channelId : JSString) :
    Except JSString RegistryState :=
  let normalized := normalizeChannelName name
  match mapGet st.nameToId normalized with
  | some existingId =>
      if existingId ≠ [] ∧ existingId ≠ channelId then
        Except.error (alreadyRegisteredMsg name existingId)
      else Except.ok (registerCommit st normalized channelId)
  | none => Except.ok (registerCommit st normalized channelId)

/-- `LocalChannelRegistry.unregister`.  The guard is `if (channelId)`, so an
alias bound to the empty string is not removed. -/
def unregister (st : RegistryState) (name : JSString) : RegistryState :=
  let normalized := normalizeChannelName name
  match mapGet st.nameToId normalized with
  | some channelId =>
      if channelId ≠ [] then
        { nameToId := mapDelete st.nameToId normalized,
          idToName := mapDelete st.idToName channelId }
      else st
  | none => st

/-- `LocalChannelRegistry.reverseLookup`: `name ? formatChannelName(name) : null`. -/
def reverseLookup (st : RegistryState) (channelId : JSString) : Option JSString :=
  match mapGet st.idToName channelId with
  | some name => if name ≠ [] then some (formatChannelName name) else none
  | none => none

/-- `LocalChannelRegistry.export`: the alias-to-id entries with bare keys. -/
def exportData (st : RegistryState) : SMap := st.nameToId

/-- `LocalChannelRegistry.import`: optionally clear, then normalize and
insert every pair of `data` in order, overwriting without conflict checks. -/
def importData (st : RegistryState) (data : SMap) (merge : Bool) : RegistryState :=
  let st0 := if merge then st else emptyRegistry
  data.foldl
    (fun acc nv =>
      let normalized := normalizeChannelName nv.1
      ⟨mapSet acc.nameToId normalized nv.2, mapSet acc.idToName nv.2 normalized⟩)
    st0

/-- `LocalChannelRegistry.clear`. -/
def clearRegistry (_st : RegistryState) : RegistryState := emptyRegistry

/-- `LocalChannelRegistry.size`: size of the alias-to-id map. -/
def sizeRegistry (st : RegistryState) : Nat := st.nameToId.length

/-- The `LocalChannelRegistry` constructor: fold the initial mappings through
the same normalize-and-set-both-maps loop. -/
def initRegistry (initialMappings : SMap) : RegistryState :=
  importData emptyRegistry initialMappings true

/-- Fail-fast sequencing of per-element `Except` computations, the
deterministic meaning of `Promise.all(inputs.map(resolve))` here: every
per-element computation is independent and the batch rejects with the error
of the first (in input order) failing element. -/
def exceptMapList {α β ε : Type} (f : α → Except ε β) : List α → Except ε (List β)
  | [] => Except.ok []
  | x :: xs =>
      match f x with
      | Except.error e => Except.error e
      | Except.ok y =>
          match exceptMapList f xs with
          | Except.error e => Except.error e
          | Except.ok ys => Except.ok (y :: ys)

/-- `LocalChannelRegistry.resolveMany`. -/
def resolveMany (st : RegistryState) (namesOrIds : List JSString) :
    Except JSString (List JSString) :=
  exceptMapList (resolve st) namesOrIds

/-- No leading whitespace: the string is a fixpoint of the leading trim. -/
def noLeadWS (s : JSString) : Prop := s.dropWhile jsIsWhitespace = s

/-- No trailing whitespace: the reversal is a fixpoint of the leading trim. -/
def noTrailWS (s : JSString) : Prop := s.reverse.dropWhile jsIsWhitespace = s.reverse

/-- Entirely lower-cased. -/
def isLowered (s : JSString) : Prop := jsToLower s = s

instance (s : JSString) : Decidable (noLeadWS s) := by unfold noLeadWS; infer_instance

instance (s : JSString) : Decidable (noTrailWS s) := by unfold noTrailWS; infer_instance

instance (s : JSString) : Decidable (isLowered s) := by unfold isLowered; infer_instance

/-- One registry mutation, for stating invariants over operation sequences.
A `register` that throws leaves the state unchanged. -/
inductive RegOp where
  | regOp (name channelId : JSString)
  | unregOp (name : JSString)
  | importOp (data : SMap) (merge : Bool)
  | clearOp
deriving Repr

/-- Apply one operation to the registry state; a thrown `register` conflict
mutates nothing. -/
def applyOp (st : RegistryState) (op : RegOp) : RegistryState :=
  match op with
  | RegOp.regOp name channelId =>
      match register st name channelId with
      | Except.ok st2 => st2
      | Except.error _ => st
  | RegOp.unregOp name => unregister st name
  | RegOp.importOp data merge => importData st data merge
  | RegOp.clearOp => clearRegistry st

/-- Run a sequence of operations from the empty registry. -/
def runOps (ops : List RegOp) : RegistryState :=
  ops.foldl applyOp emptyRegistry

/-- The bidirectional-consistency property asserted by the specification:
every alias-to-id entry is mirrored in the id-to-alias map, and the maps
have equal size. -/
def exactInverses (st : RegistryState) : Prop :=
  (∀ p ∈ st.nameToId, mapGet st.idToName p.2 = some p.1) ∧
    st.nameToId.length = st.idToName.length

instance (st : RegistryState) : Decidable (exactInverses st) := by
  unfold exactInverses; infer_instance

/-- Which operations a sequence may use for the amended bidirectional
invariant: `register` with a truthy id and a truthy normalized alias,
`unregister`, and `clear`; bulk `import` is excluded. -/
def goodOp : RegOp → Prop
  | RegOp.regOp name channelId => channelId ≠ [] ∧ normalizeChannelName name ≠ []
  | RegOp.unregOp _ => True
  | RegOp.importOp _ _ => False
  | RegOp.clearOp => True

instance : DecidablePred goodOp := fun op => by
  cases op <;> (unfold goodOp; infer_instance)

/-- The strengthened registry invariant maintained by `register`,
`unregister` and `clear` (with truthy arguments): the two maps are inverse
associations with duplicate-free keys, and every alias-to-id entry has a
non-empty normal-form key and a non-empty id. -/
def StrongInv (st : RegistryState) : Prop :=
  (∀ p ∈ st.nameToId, mapGet st.idToName p.2 = some p.1) ∧
  (∀ p ∈ st.idToName, mapGet st.nameToId p.2 = some p.1) ∧
  (st.nameToId.map Prod.fst).Nodup ∧
  (st.idToName.map Prod.fst).Nodup ∧
  (∀ p ∈ st.nameToId, p.1 ≠ [] ∧ p.2 ≠ [] ∧ normalizeChannelName ('#' :: p.1) = p.1)

instance (st : RegistryState) : Decidable (StrongInv st) := by
  unfold StrongInv; infer_instance

/-- `isSuiNSName` from the address-resolution module:
`input.toLowerCase().endsWith('.sui')`. -/
def isSuiNSName (input : JSString) : Bool :=
  ".sui".data.isSuffixOf (jsToLower input)

/-- The part of a SuiNS name record this subsystem reads; `targetAddress`
is an optional string field. -/
structure NameRecord where
  targetAddress : Option JSString
deriving DecidableEq, Repr

/-- The external `SuinsClient.getNameRecord` collaborator: either throws
(`Except.error`, e.g. a network failure) or returns a record or nothing. -/
abbrev SuinsClient := JSString → Except JSString (Option NameRecord)

/-- Message of the SuiNS resolution failure:
`Failed to resolve SuiNS name: ${nameOrAddress}`. -/
def suinsFailedMsg (nameOrAddress : JSString) : JSString :=
  "Failed to resolve SuiNS name: ".data ++ nameOrAddress

/-- `SuiNSResolver.resolve`, instrumented with the list of lookups issued to
the external client.  The guard on the looked-up record is
`if (!record || !record.targetAddress)`, so a record whose target is the
empty string also fails. -/
def suinsResolve (client : SuinsClient) (nameOrAddress : JSString) :
    Except JSString JSString × List JSString :=
  if isSuiNSName nameOrAddress = false then (Except.ok nameOrAddress, [])
  else
    match client nameOrAddress with
    | Except.error e => (Except.error e, [nameOrAddress])
    | Except.ok none => (Except.error (suinsFailedMsg nameOrAddress), [nameOrAddress])
    | Except.ok (some record) =>
        match record.targetAddress with
        | none => (Except.error (suinsFailedMsg nameOrAddress), [nameOrAddress])
        | some addr =>
            if addr = [] then (Except.error (suinsFailedMsg nameOrAddress), [nameOrAddress])
            else (Except.ok addr, [nameOrAddress])

/-- `SuiNSResolver.resolveMany`. -/
def suinsResolveMany (client : SuinsClient) (namesOrAddresses : List JSString) :
    Except JSString (List JSString) :=
  exceptMapList (fun x => (suinsResolve client x).1) namesOrAddresses

/-- What the persistent store holds under the configured key: either a
parseable serialized snapshot or an unparseable blob. -/
inductive StoredVal where
  | valid (data : SMap)
  | invalid
deriving DecidableEq, Repr

/-- The external key/value store cell addressed by the storage key, plus
whether `setItem` currently throws (e.g. quota exceeded). -/
structure StorageModel where
  contents : Option StoredVal
  setFails : Bool
deriving DecidableEq, Repr

/-- State of a `PersistentChannelRegistry`: the inherited in-memory
registry and the (possibly unavailable) storage. -/
structure PersistentState where
  reg : RegistryState
  storage : Option StorageModel
deriving DecidableEq, Repr

/-- `PersistentChannelRegistry.#persist`: serialize `export()` and write it;
a throwing `setItem` is swallowed and changes nothing. -/
def persistWrite (ps : PersistentState) : PersistentState :=
  match ps.storage with
  | none => ps
  | some s =>
      if s.setFails then ps
      else
        let s2 : StorageModel := { s with contents := some (StoredVal.valid (exportData ps.reg)) }
        { ps with storage := some s2 }

/-- The `PersistentChannelRegistry` constructor: read the stored snapshot
when present and parseable, else start empty. -/
def initPersistent (storage : Option StorageModel) : PersistentState :=
  match storage with
  | none => { reg := emptyRegistry, storage := none }
  | some s =>
      match s.contents with
      | some (StoredVal.valid data) => { reg := initRegistry data, storage := some s }
      | _ => { reg := emptyRegistry, storage := some s }

/-- `PersistentChannelRegistry.register`: the inherited register, then
persist on success. -/
def pRegister (ps : PersistentState) (name channelId : JSString) :
    Except JSString PersistentState :=
  match register ps.reg name channelId with
  | Except.error e => Except.error e
  | Except.ok reg2 => Except.ok (persistWrite { ps with reg := reg2 })

/-- `PersistentChannelRegistry.unregister`: the inherited unregister, then
persist. -/
def pUnregister (ps : PersistentState) (name : JSString) : PersistentState :=
  persistWrite { ps with reg := unregister ps.reg name }

/-- `PersistentChannelRegistry.save`. -/
def pSave (ps : PersistentState) : PersistentState := persistWrite ps

/-- `import` as inherited by `PersistentChannelRegistry` (no persistence). -/
def pImportData (ps : PersistentState) (data : SMap) (merge : Bool) : PersistentState :=
  { ps with reg := importData ps.reg data merge }

/-- `clear` as inherited by `PersistentChannelRegistry` (no persistence). -/
def pClear (ps : PersistentState) : PersistentState :=
  { ps with reg := clearRegistry ps.reg }

/-- `PersistentChannelRegistry.reload`: re-read the stored snapshot and
`import(..., false)` when present and parseable; absence and parse errors
leave the in-memory state as it is. -/
def pReload (ps : PersistentState) : PersistentState :=
  match ps.storage with
  | none => ps
  | some s =>
      match s.contents with
      | some (StoredVal.valid data) => { ps with reg := importData ps.reg data false }
      | _ => ps

-- ===== Theorems =====

theorem mapGet_mem {m : SMap} {k v : JSString} (h : mapGet m k = some v) :
    (k, v) ∈ m := by
  induction m with
  | nil => simp [mapGet] at h
  | cons p rest ih =>
      obtain ⟨k0, v0⟩ := p
      by_cases hk : k0 = k
      · subst hk
        simp [mapGet] at h
        simp [h]
      · simp [mapGet, hk] at h
        exact List.mem_cons_of_mem _ (ih h)

theorem mapGet_key_mem {m : SMap} {k v : JSString} (h : mapGet m k = some v) :
    k ∈ m.map Prod.fst := by
  have := mapGet_mem h
  exact List.mem_map.mpr ⟨(k, v), this, rfl⟩

theorem mem_mapGet {m : SMap} {p : JSString × JSString}
    (nd : (m.map Prod.fst).Nodup) (h : p ∈ m) : mapGet m p.1 = some p.2 := by
  induction m with
  | nil => simp at h
  | cons q rest ih =>
      obtain ⟨k0, v0⟩ := q
      simp only [List.map_cons, List.nodup_cons] at nd
      rcases List.mem_cons.mp h with h1 | h1
      · subst h1
        simp [mapGet]
      · have hne : k0 ≠ p.1 := by
          intro he
          exact nd.1 (he ▸ List.mem_map.mpr ⟨p, h1, rfl⟩)
        simp [mapGet, hne]
        exact ih nd.2 h1

theorem mapGet_eq_none_iff {m : SMap} {k : JSString} :
    mapGet m k = none ↔ k ∉ m.map Prod.fst := by
  induction m with
  | nil => simp [mapGet]
  | cons p rest ih =>
      obtain ⟨k0, v0⟩ := p
      by_cases hk : k0 = k
      · subst hk; simp [mapGet]
      · simp [mapGet, hk, ih, Ne.symm hk]

theorem mapGet_mapSet_self {m : SMap} {k v : JSString} :
    mapGet (mapSet m k v) k = some v := by
  induction m with
  | nil => simp [mapSet, mapGet]
  | cons p rest ih =>
      obtain ⟨k0, v0⟩ := p
      by_cases hk : k0 = k
      · subst hk; simp [mapSet, mapGet]
      · simp [mapSet, hk, mapGet, ih]

theorem mapGet_mapSet_ne {m : SMap} {k k' v : JSString} (h : k' ≠ k) :
    mapGet (mapSet m k v) k' = mapGet m k' := by
  induction m with
  | nil => simp [mapSet, mapGet, Ne.symm h]
  | cons p rest ih =>
      obtain ⟨k0, v0⟩ := p
      by_cases hk : k0 = k
      · subst hk; simp [mapSet, mapGet, Ne.symm h]
      · by_cases hk' : k0 = k'
        · subst hk'; simp [mapSet, hk, mapGet]
        · simp [mapSet, hk, mapGet, hk', ih]

theorem mapGet_mapDelete_self {m : SMap} {k : JSString} :
    mapGet (mapDelete m k) k = none := by
  induction m with
  | nil => simp [mapDelete, mapGet]
  | cons p rest ih =>
      obtain ⟨k0, v0⟩ := p
      by_cases hk : k0 = k
      · have hstep : mapDelete ((k0, v0) :: rest) k = mapDelete rest k := by
          simp [mapDelete, hk]
        rw [hstep]; exact ih
      · have hstep : mapDelete ((k0, v0) :: rest) k = (k0, v0) :: mapDelete rest k := by
          simp [mapDelete, hk]
        rw [hstep]
        simpa [mapGet, hk] using ih

theorem mapGet_mapDelete_ne {m : SMap} {k k' : JSString} (h : k' ≠ k) :
    mapGet (mapDelete m k) k' = mapGet m k' := by
  induction m with
  | nil => simp [mapDelete, mapGet]
  | cons p rest ih =>
      obtain ⟨k0, v0⟩ := p
      by_cases hk : k0 = k
      · subst hk
        simpa [mapDelete, mapGet, Ne.symm h] using ih
      · by_cases hk' : k0 = k'
        · subst hk'; simpa [mapDelete, hk, mapGet] using ih
        · simpa [mapDelete, hk, mapGet, hk'] using ih

theorem mem_mapSet_elim {m : SMap} {k v : JSString} {p : JSString × JSString}
    (nd : (m.map Prod.fst).Nodup) (h : p ∈ mapSet m k v) :
    p = (k, v) ∨ (p ∈ m ∧ p.1 ≠ k) := by
  induction m with
  | nil =>
      simp [mapSet] at h
      exact Or.inl h
  | cons q rest ih =>
      obtain ⟨k0, v0⟩ := q
      simp only [List.map_cons, List.nodup_cons] at nd
      by_cases hk : k0 = k
      · subst hk
        simp only [mapSet, if_pos rfl] at h
        rcases List.mem_cons.mp h with h1 | h1
        · exact Or.inl h1
        · refine Or.inr ⟨List.mem_cons_of_mem _ h1, ?_⟩
          intro he
          exact nd.1 (he ▸ List.mem_map.mpr ⟨p, h1, rfl⟩)
      · simp only [mapSet, if_neg hk] at h
        rcases List.mem_cons.mp h with h1 | h1
        · subst h1
          exact Or.inr ⟨List.mem_cons_self _ _, hk⟩
        · rcases ih nd.2 h1 with h2 | h2
          · exact Or.inl h2
          · exact Or.inr ⟨List.mem_cons_of_mem _ h2.1, h2.2⟩

theorem mem_mapSet_of_ne {m : SMap} {k v : JSString} {p : JSString × JSString}
    (h : p ∈ m) (hne : p.1 ≠ k) : p ∈ mapSet m k v := by
  induction m with
  | nil => simp at h
  | cons q rest ih =>
      obtain ⟨k0, v0⟩ := q
      by_cases hk : k0 = k
      · subst hk
        simp only [mapSet, if_pos rfl]
        rcases List.mem_cons.mp h with h1 | h1
        · exact absurd (congrArg Prod.fst h1) hne
        · exact List.mem_cons_of_mem _ h1
      · simp only [mapSet, if_neg hk]
        rcases List.mem_cons.mp h with h1 | h1
        · exact h1 ▸ List.mem_cons_self _ _
        · exact List.mem_cons_of_mem _ (ih h1)

theorem mem_mapSet_self {m : SMap} {k v : JSString} : (k, v) ∈ mapSet m k v :=
  mapGet_mem mapGet_mapSet_self

theorem mem_mapDelete_elim {m : SMap} {k : JSString} {p : JSString × JSString}
    (h : p ∈ mapDelete m k) : p ∈ m ∧ p.1 ≠ k := by
  have := List.mem_filter.mp h
  refine ⟨this.1, ?_⟩
  simpa using this.2

theorem mem_mapDelete_of {m : SMap} {k : JSString} {p : JSString × JSString}
    (h : p ∈ m) (hne : p.1 ≠ k) : p ∈ mapDelete m k := by
  exact List.mem_filter.mpr ⟨h, by simpa using hne⟩

theorem keys_mapSet_of_mem {m : SMap} {k v : JSString}
    (h : k ∈ m.map Prod.fst) : (mapSet m k v).map Prod.fst = m.map Prod.fst := by
  induction m with
  | nil => simp at h
  | cons q rest ih =>
      obtain ⟨k0, v0⟩ := q
      by_cases hk : k0 = k
      · subst hk; simp [mapSet]
      · simp only [List.map_cons] at h
        rcases List.mem_cons.mp h with h1 | h1
        · exact absurd h1.symm hk
        · simp [mapSet, hk, ih h1]

theorem keys_mapSet_of_not_mem {m : SMap} {k v : JSString}
    (h : k ∉ m.map Prod.fst) :
    (mapSet m k v).map Prod.fst = m.map Prod.fst ++ [k] := by
  induction m with
  | nil => simp [mapSet]
  | cons q rest ih =>
      obtain ⟨k0, v0⟩ := q
      simp only [List.map_cons, List.mem_cons] at h
      push_neg at h
      simp [mapSet, Ne.symm h.1, ih h.2]

theorem nodup_keys_mapSet {m : SMap} {k v : JSString}
    (nd : (m.map Prod.fst).Nodup) : ((mapSet m k v).map Prod.fst).Nodup := by
  by_cases h : k ∈ m.map Prod.fst
  · rw [keys_mapSet_of_mem h]; exact nd
  · rw [keys_mapSet_of_not_mem h, ← List.concat_eq_append]
    exact List.Nodup.concat h nd

theorem nodup_keys_mapDelete {m : SMap} {k : JSString}
    (nd : (m.map Prod.fst).Nodup) : ((mapDelete m k).map Prod.fst).Nodup := by
  have : (mapDelete m k).map Prod.fst
      = (m.map Prod.fst).filter (fun x => decide (x ≠ k)) := by
    unfold mapDelete
    rw [List.filter_map]
    rfl
  rw [this]
  exact nd.filter _

theorem length_mapSet_of_get_none {m : SMap} {k v : JSString}
    (h : mapGet m k = none) : (mapSet m k v).length = m.length + 1 := by
  induction m with
  | nil => simp [mapSet]
  | cons p rest ih =>
      obtain ⟨k0, v0⟩ := p
      by_cases hk : k0 = k
      · subst hk; simp [mapGet] at h
      · simp [mapGet, hk] at h
        simp [mapSet, hk, ih h]

theorem mapSet_self_of_get {m : SMap} {k v : JSString}
    (h : mapGet m k = some v) : mapSet m k v = m := by
  induction m with
  | nil => simp [mapGet] at h
  | cons p rest ih =>
      obtain ⟨k0, v0⟩ := p
      by_cases hk : k0 = k
      · subst hk
        simp [mapGet] at h
        simp [mapSet, h]
      · simp [mapGet, hk] at h
        simp [mapSet, hk, ih h]

theorem char_toNat_ofNat_lt {n : Nat} (h : n < 55296) : (Char.ofNat n).toNat = n := by
  unfold Char.ofNat
  rw [dif_pos (Or.inl h)]
  rfl

theorem jsLowerChar_idem (c : Char) : jsLowerChar (jsLowerChar c) = jsLowerChar c := by
  unfold jsLowerChar
  by_cases h : 65 ≤ c.toNat ∧ c.toNat ≤ 90
  · have ht : (Char.ofNat (c.toNat + 32)).toNat = c.toNat + 32 :=
      char_toNat_ofNat_lt (by omega)
    rw [if_pos h, if_neg (by rw [ht]; omega)]
  · rw [if_neg h, if_neg h]

theorem jsIsWhitespace_lowerChar (c : Char) :
    jsIsWhitespace (jsLowerChar c) = jsIsWhitespace c := by
  unfold jsLowerChar
  by_cases h : 65 ≤ c.toNat ∧ c.toNat ≤ 90
  · have ht : (Char.ofNat (c.toNat + 32)).toNat = c.toNat + 32 :=
      char_toNat_ofNat_lt (by omega)
    rw [if_pos h]
    unfold jsIsWhitespace
    rw [ht, decide_eq_decide]
    omega
  · rw [if_neg h]

theorem jsToLower_idem (s : JSString) : jsToLower (jsToLower s) = jsToLower s := by
  unfold jsToLower
  induction s with
  | nil => rfl
  | cons c t ih => simp only [List.map_cons, jsLowerChar_idem, List.map_map] at ih ⊢; rw [ih]

theorem dropWhile_eq_self_of_head {p : Char → Bool} {l : JSString}
    (h : ∀ a, l.head? = some a → p a = false) : l.dropWhile p = l := by
  cases l with
  | nil => rfl
  | cons c t =>
      have := h c rfl
      simp [List.dropWhile, this]

theorem head_false_of_dropWhile_eq_self {p : Char → Bool} {l : JSString}
    (h : l.dropWhile p = l) : ∀ a, l.head? = some a → p a = false := by
  cases l with
  | nil => intro a ha; simp at ha
  | cons c t =>
      intro a ha
      simp only [List.head?_cons, Option.some_inj] at ha
      subst ha
      by_contra hp
      rw [Bool.not_eq_false] at hp
      rw [List.dropWhile_cons_of_pos hp] at h
      have hle : (t.dropWhile p).length ≤ t.length := (List.dropWhile_sublist p).length_le
      rw [h] at hle
      simp at hle

theorem noLeadWS_jsTrim (s : JSString) : noLeadWS (jsTrim s) := by
  unfold jsTrim noLeadWS
  set d := s.dropWhile jsIsWhitespace with hd
  have hfix : d.dropWhile jsIsWhitespace = d := by
    rw [hd]; exact List.dropWhile_idempotent _ _
  apply dropWhile_eq_self_of_head
  intro a ha
  -- the trailing-trimmed list is a front part of `d`, so they share the head
  have hpre : (d.reverse.dropWhile jsIsWhitespace).reverse <+: d := by
    rw [← List.reverse_suffix, List.reverse_reverse]
    exact List.dropWhile_suffix _
  obtain ⟨t, hX⟩ := hpre
  have hXne : (d.reverse.dropWhile jsIsWhitespace).reverse ≠ [] := by
    intro hnil; rw [hnil] at ha; simp at ha
  have hhd : d.head? = some a := by
    rw [← hX, List.head?_append_of_ne_nil _ hXne, ha]
  exact head_false_of_dropWhile_eq_self hfix a hhd

theorem noTrailWS_jsTrim (s : JSString) : noTrailWS (jsTrim s) := by
  unfold jsTrim noTrailWS
  rw [List.reverse_reverse]
  exact List.dropWhile_idempotent _ _

theorem jsTrim_eq_self {s : JSString} (h1 : noLeadWS s) (h2 : noTrailWS s) :
    jsTrim s = s := by
  unfold jsTrim
  rw [h1, h2, List.reverse_reverse]

theorem noTrailWS_jsToLower {s : JSString} (h : noTrailWS s) :
    noTrailWS (jsToLower s) := by
  unfold noTrailWS at h ⊢
  unfold jsToLower
  rw [← List.map_reverse, List.dropWhile_map]
  have hcomp : (jsIsWhitespace ∘ jsLowerChar) = jsIsWhitespace := by
    funext c; exact jsIsWhitespace_lowerChar c
  rw [hcomp, h]

theorem noTrailWS_tail {c : Char} {t : JSString} (h : noTrailWS (c :: t)) :
    noTrailWS t := by
  unfold noTrailWS at h ⊢
  rw [List.reverse_cons] at h
  cases ht : t.reverse with
  | nil => rfl
  | cons a r =>
      rw [ht] at h
      have hhead := head_false_of_dropWhile_eq_self h a (by rw [List.cons_append]; rfl)
      exact dropWhile_eq_self_of_head (fun b hb => by
        simp only [List.head?_cons, Option.some_inj] at hb; exact hb ▸ hhead)

theorem noTrailWS_cons {c : Char} {u : JSString} (hc : jsIsWhitespace c = false)
    (h : noTrailWS u) : noTrailWS (c :: u) := by
  unfold noTrailWS at h ⊢
  rw [List.reverse_cons]
  cases hu : u.reverse with
  | nil => simp [List.dropWhile, hc]
  | cons a r =>
      rw [hu] at h
      have hhead := head_false_of_dropWhile_eq_self h a rfl
      rw [List.cons_append, List.dropWhile_cons_of_neg (by rw [hhead]; simp)]

theorem isLowered_jsToLower (s : JSString) : isLowered (jsToLower s) :=
  jsToLower_idem s

theorem isLowered_drop {s : JSString} (h : isLowered s) (n : Nat) :
    isLowered (s.drop n) := by
  unfold isLowered jsToLower at h ⊢
  rw [List.map_drop, h]

theorem noTrailWS_normalize (x : JSString) : noTrailWS (normalizeChannelName x) := by
  unfold normalizeChannelName
  have h1 : noTrailWS (jsToLower (jsTrim x)) := noTrailWS_jsToLower (noTrailWS_jsTrim x)
  by_cases hh : startsWithHash (jsToLower (jsTrim x)) = true
  · rw [if_pos hh]
    cases hc : jsToLower (jsTrim x) with
    | nil => rw [hc] at hh; simp [startsWithHash] at hh
    | cons c t =>
        rw [hc] at h1
        simpa using noTrailWS_tail h1
  · rw [if_neg hh]
    exact h1

theorem isLowered_normalize (x : JSString) : isLowered (normalizeChannelName x) := by
  unfold normalizeChannelName
  have h1 : isLowered (jsToLower (jsTrim x)) := isLowered_jsToLower _
  by_cases hh : startsWithHash (jsToLower (jsTrim x)) = true
  · rw [if_pos hh]
    exact isLowered_drop h1 1
  · rw [if_neg hh]
    exact h1

theorem normalize_fix {u : JSString} (h1 : noLeadWS u) (h2 : noTrailWS u)
    (h3 : isLowered u) (h4 : startsWithHash u = false) :
    normalizeChannelName u = u := by
  unfold normalizeChannelName
  rw [jsTrim_eq_self h1 h2, h3, h4]
  simp

/-- Every normalization result is fixed by formatting-then-normalizing: the
key stored by the registry round-trips through the `#` presentation form. -/
theorem normalize_format_key (x : JSString) :
    normalizeChannelName ('#' :: normalizeChannelName x) = normalizeChannelName x := by
  set u := normalizeChannelName x with hu
  have h2 : noTrailWS u := noTrailWS_normalize x
  have h3 : isLowered u := isLowered_normalize x
  have hlead : noLeadWS ('#' :: u) :=
    dropWhile_eq_self_of_head (fun a ha => by
      simp only [List.head?_cons, Option.some_inj] at ha
      subst ha; decide)
  have htrail : noTrailWS ('#' :: u) := noTrailWS_cons (by decide) h2
  have hlower : jsToLower ('#' :: u) = '#' :: u := by
    unfold isLowered at h3
    unfold jsToLower at h3 ⊢
    simp only [List.map_cons, h3]
    rfl
  show normalizeChannelName ('#' :: u) = u
  unfold normalizeChannelName
  rw [jsTrim_eq_self hlead htrail, hlower]
  have hh : startsWithHash ('#' :: u) = true := by
    simp [startsWithHash]
  rw [if_pos hh]
  rfl

theorem strongInv_length {st : RegistryState} (h : StrongInv st) :
    st.nameToId.length = st.idToName.length := by
  obtain ⟨h1, h2, nd1, nd2, _⟩ := h
  have step : ∀ A B : SMap, (∀ p ∈ A, mapGet B p.2 = some p.1) →
      (A.map Prod.fst).Nodup → A.length ≤ B.length := by
    intro A B hAB ndA
    have hndA : A.Nodup := ndA.of_map
    have hsnd : (A.map Prod.snd).Nodup := by
      refine List.Nodup.map_on ?_ hndA
      intro p hp q hq he
      have hp1 := hAB p hp
      have hq1 := hAB q hq
      rw [he] at hp1
      have hfst : p.1 = q.1 := Option.some_inj.mp (hp1.symm.trans hq1)
      exact Prod.ext hfst he
    have hsub : A.map Prod.snd ⊆ B.map Prod.fst := by
      intro x hx
      obtain ⟨p, hp, rfl⟩ := List.mem_map.mp hx
      exact mapGet_key_mem (hAB p hp)
    calc A.length = (A.map Prod.snd).length := (List.length_map _ _).symm
      _ ≤ (B.map Prod.fst).length := (List.subperm_of_subset hsnd hsub).length_le
      _ = B.length := List.length_map _ _
  exact Nat.le_antisymm (step _ _ h1 nd1) (step _ _ h2 nd2)

theorem strongInv_insert {st : RegistryState} (hInv : StrongInv st)
    {n cid : JSString} (hn : n ≠ []) (hcid : cid ≠ [])
    (hkey : normalizeChannelName ('#' :: n) = n)
    (hN : mapGet st.nameToId n = none) (hI : mapGet st.idToName cid = none) :
    StrongInv ⟨mapSet st.nameToId n cid, mapSet st.idToName cid n⟩ := by
  obtain ⟨h1, h2, nd1, nd2, hwf⟩ := hInv
  refine ⟨?_, ?_, nodup_keys_mapSet nd1, nodup_keys_mapSet nd2, ?_⟩
  · intro p hp
    rcases mem_mapSet_elim nd1 hp with rfl | ⟨hpm, hpne⟩
    · exact mapGet_mapSet_self
    · have hne2 : p.2 ≠ cid := by
        intro he
        rw [← he] at hI
        rw [h1 p hpm] at hI
        exact Option.noConfusion hI
      rw [mapGet_mapSet_ne hne2]
      exact h1 p hpm
  · intro q hq
    rcases mem_mapSet_elim nd2 hq with rfl | ⟨hqm, hqne⟩
    · exact mapGet_mapSet_self
    · have hne2 : q.2 ≠ n := by
        intro he
        rw [← he] at hN
        rw [h2 q hqm] at hN
        exact Option.noConfusion hN
      rw [mapGet_mapSet_ne hne2]
      exact h2 q hqm
  · intro p hp
    rcases mem_mapSet_elim nd1 hp with rfl | ⟨hpm, _⟩
    · exact ⟨hn, hcid, hkey⟩
    · exact hwf p hpm

theorem strongInv_rename {st : RegistryState} (hInv : StrongInv st)
    {n cid a : JSString} (hn : n ≠ []) (hcid : cid ≠ [])
    (hkey : normalizeChannelName ('#' :: n) = n)
    (hN : mapGet st.nameToId n = none) (hI : mapGet st.idToName cid = some a)
    (_han : a ≠ n) :
    StrongInv ⟨mapSet (mapDelete st.nameToId a) n cid, mapSet st.idToName cid n⟩ := by
  obtain ⟨h1, h2, nd1, nd2, hwf⟩ := hInv
  have ndd : ((mapDelete st.nameToId a).map Prod.fst).Nodup := nodup_keys_mapDelete nd1
  refine ⟨?_, ?_, nodup_keys_mapSet ndd, nodup_keys_mapSet nd2, ?_⟩
  · intro p hp
    rcases mem_mapSet_elim ndd hp with rfl | ⟨hpm, hpne⟩
    · exact mapGet_mapSet_self
    · obtain ⟨hpN, hpa⟩ := mem_mapDelete_elim hpm
      have hne2 : p.2 ≠ cid := by
        intro he
        have := h1 p hpN
        rw [he, hI] at this
        exact hpa (Option.some_inj.mp this).symm
      rw [mapGet_mapSet_ne hne2]
      exact h1 p hpN
  · intro q hq
    rcases mem_mapSet_elim nd2 hq with rfl | ⟨hqm, hqne⟩
    · exact mapGet_mapSet_self
    · have hq2 := h2 q hqm
      have hne2 : q.2 ≠ n := by
        intro he
        rw [he, hN] at hq2
        exact Option.noConfusion hq2
      have hnea : q.2 ≠ a := by
        intro he
        rw [he] at hq2
        have hmema : (cid, a) ∈ st.idToName := mapGet_mem hI
        have : mapGet st.nameToId a = some cid := h2 (cid, a) hmema
        rw [this] at hq2
        exact hqne (Option.some_inj.mp hq2).symm
      rw [mapGet_mapSet_ne hne2, mapGet_mapDelete_ne hnea]
      exact hq2
  · intro p hp
    rcases mem_mapSet_elim ndd hp with rfl | ⟨hpm, _⟩
    · exact ⟨hn, hcid, hkey⟩
    · exact hwf p (mem_mapDelete_elim hpm).1

/-- Every normalization result used as a register key satisfies the
normal-form condition recorded in `StrongInv`. -/
theorem normalize_key_normal (name : JSString) :
    normalizeChannelName ('#' :: normalizeChannelName name) = normalizeChannelName name :=
  normalize_format_key name

theorem strongInv_register {st : RegistryState} (hInv : StrongInv st)
    {name channelId : JSString} (hid : channelId ≠ [])
    (hn : normalizeChannelName name ≠ []) {st' : RegistryState}
    (h : register st name channelId = Except.ok st') : StrongInv st' := by
  have hInv0 := hInv
  obtain ⟨h1, h2, nd1, nd2, hwf⟩ := hInv0
  unfold register at h
  cases hEx : mapGet st.nameToId (normalizeChannelName name) with
  | some j =>
      simp only [hEx] at h
      have hjne : j ≠ [] := (hwf _ (mapGet_mem hEx)).2.1
      by_cases hje : j = channelId
      · subst hje
        rw [if_neg (by simp)] at h
        cases h
        have hIn : mapGet st.idToName j = some (normalizeChannelName name) :=
          h1 _ (mapGet_mem hEx)
        unfold registerCommit
        simp only [hIn]
        rw [if_neg (by simp)]
        rw [mapSet_self_of_get hEx, mapSet_self_of_get hIn]
        exact hInv
      · rw [if_pos ⟨hjne, hje⟩] at h
        simp at h
  | none =>
      simp only [hEx] at h
      cases h
      unfold registerCommit
      cases hIn : mapGet st.idToName channelId with
      | none =>
          simp only [hIn]
          exact strongInv_insert hInv hn hid (normalize_key_normal name) hEx hIn
      | some a =>
          simp only [hIn]
          have hmem : (channelId, a) ∈ st.idToName := mapGet_mem hIn
          have hNa : mapGet st.nameToId a = some channelId := h2 _ hmem
          have hane : a ≠ [] := (hwf _ (mapGet_mem hNa)).1
          by_cases haeq : a = normalizeChannelName name
          · exfalso
            rw [haeq, hEx] at hNa
            exact Option.noConfusion hNa
          · rw [if_pos ⟨hane, haeq⟩]
            exact strongInv_rename hInv hn hid (normalize_key_normal name) hEx hIn haeq

theorem strongInv_unregister {st : RegistryState} (hInv : StrongInv st)
    (name : JSString) : StrongInv (unregister st name) := by
  have hInv0 := hInv
  obtain ⟨h1, h2, nd1, nd2, hwf⟩ := hInv0
  cases hEx : mapGet st.nameToId (normalizeChannelName name) with
  | none =>
      simp only [unregister, hEx]
      exact hInv
  | some cid =>
      have hcne : cid ≠ [] := (hwf _ (mapGet_mem hEx)).2.1
      simp only [unregister, hEx]
      rw [if_pos hcne]
      have hIn : mapGet st.idToName cid = some (normalizeChannelName name) :=
        h1 _ (mapGet_mem hEx)
      refine ⟨?_, ?_, nodup_keys_mapDelete nd1, nodup_keys_mapDelete nd2, ?_⟩
      · intro p hp
        obtain ⟨hpm, hpne⟩ := mem_mapDelete_elim hp
        have hne2 : p.2 ≠ cid := by
          intro he
          have := h1 p hpm
          rw [he, hIn] at this
          exact hpne (Option.some_inj.mp this).symm
        rw [mapGet_mapDelete_ne hne2]
        exact h1 p hpm
      · intro q hq
        obtain ⟨hqm, hqne⟩ := mem_mapDelete_elim hq
        have hne2 : q.2 ≠ normalizeChannelName name := by
          intro he
          have := h2 q hqm
          rw [he, hEx] at this
          exact hqne (Option.some_inj.mp this).symm
        rw [mapGet_mapDelete_ne hne2]
        exact h2 q hqm
      · intro p hp
        exact hwf p (mem_mapDelete_elim hp).1

theorem strongInv_empty : StrongInv emptyRegistry := by
  refine ⟨?_, ?_, ?_, ?_, ?_⟩ <;> simp [emptyRegistry]

theorem strongInv_applyOp {st : RegistryState} (hInv : StrongInv st)
    {op : RegOp} (hop : goodOp op) : StrongInv (applyOp st op) := by
  cases op with
  | regOp name channelId =>
      cases hreg : register st name channelId with
      | ok st2 =>
          have heq : applyOp st (RegOp.regOp name channelId) = st2 := by
            simp only [applyOp, hreg]
          rw [heq]
          exact strongInv_register hInv hop.1 hop.2 hreg
      | error e =>
          have heq : applyOp st (RegOp.regOp name channelId) = st := by
            simp only [applyOp, hreg]
          rw [heq]
          exact hInv
  | unregOp name => exact strongInv_unregister hInv name
  | importOp data merge => exact absurd hop (by simp [goodOp])
  | clearOp => exact strongInv_empty

theorem strongInv_foldl {ops : List RegOp} :
    ∀ st : RegistryState, StrongInv st → (∀ op ∈ ops, goodOp op) →
      StrongInv (ops.foldl applyOp st) := by
  induction ops with
  | nil => intro st h _; exact h
  | cons op rest ih =>
      intro st h hops
      rw [List.foldl_cons]
      exact ih _ (strongInv_applyOp h (hops op (List.mem_cons_self _ _)))
        (fun o ho => hops o (List.mem_cons_of_mem _ ho))

/-- C1 (counterexample): the claim quantifies over sequences that include
`import`; a single merging `import` whose two aliases carry the same id
leaves the alias-to-id map with two entries but the id-to-alias map with
one, so the maps are not exact inverses of equal size. -/
theorem C1_counterexample :
    ¬ exactInverses
        (runOps [RegOp.importOp [("a".data, "0x1".data), ("b".data, "0x1".data)] true]) := by
  decide

/-- C1 (amended): after every operation of a sequence drawn from
`register`, `unregister` and `clear` in which each `register` call has a
non-empty id and an alias with non-empty normalized form, starting from the
empty registry, the alias-to-id map and the id-to-alias map are exact
inverses with equal sizes (a thrown `register` conflict changes nothing). -/
theorem C1_amended (ops : List RegOp) (h : ∀ op ∈ ops, goodOp op) :
    exactInverses (runOps ops) := by
  have hInv : StrongInv (runOps ops) :=
    strongInv_foldl emptyRegistry strongInv_empty h
  exact ⟨hInv.1, strongInv_length hInv⟩

/-- C1 witness: a concrete good sequence. -/
theorem C1_witness :
    exactInverses
      (runOps [RegOp.regOp "general".data "0x1".data,
               RegOp.regOp "#Main".data "0x1".data,
               RegOp.regOp "random".data "0x2".data,
               RegOp.unregOp "RANDOM".data,
               RegOp.regOp "general".data "0x9".data]) :=
  C1_amended _ (by decide)

/-- C2 (counterexample): `normalizeChannelName` strips only one leading
`#`, so on `"##a"` a second application strips again and the function is
not idempotent. -/
theorem C2_counterexample :
    normalizeChannelName (normalizeChannelName "##a".data) ≠
      normalizeChannelName "##a".data := by
  decide

/-- C2 (amended): `normalizeChannelName` (trim, lower-case, strip one
leading `#`) is idempotent on every input whose normalized form neither
starts with `#` nor starts with whitespace; in general a second application
can strip a further `#` or trim further whitespace. -/
theorem C2_amended (x : JSString)
    (h1 : startsWithHash (normalizeChannelName x) = false)
    (h2 : noLeadWS (normalizeChannelName x)) :
    normalizeChannelName (normalizeChannelName x) = normalizeChannelName x :=
  normalize_fix h2 (noTrailWS_normalize x) (isLowered_normalize x) h1

/-- C2 witness: the spec's own example `"  #GENERAL  "`. -/
theorem C2_witness :
    startsWithHash (normalizeChannelName "  #GENERAL  ".data) = false ∧
      noLeadWS (normalizeChannelName "  #GENERAL  ".data) ∧
      normalizeChannelName (normalizeChannelName "  #GENERAL  ".data) =
        normalizeChannelName "  #GENERAL  ".data :=
  ⟨by decide, by decide, C2_amended _ (by decide) (by decide)⟩

/-- C5 (counterexample): the claim's biconditional fails on empty-string
ids.  `register("a", "")` succeeds and binds the alias to `""`; a later
`register("a", "0x1")` finds the alias bound to a *different* id, yet does
not raise `AliasConflict`, because the guard tests the existing id for
truthiness (`existingId && ...`) and the empty string is falsy. -/
theorem C5_counterexample :
    register emptyRegistry "a".data [] =
        Except.ok ⟨[("a".data, [])], [([], "a".data)]⟩ ∧
      mapGet [("a".data, [])] "a".data = some [] ∧
      ([] : JSString) ≠ "0x1".data ∧
      (register ⟨[("a".data, [])], [([], "a".data)]⟩ "a".data "0x1".data).isOk = true := by
  decide

/-- C5 (amended): on *every* registry state — including the reachable
states where an alias is bound to the empty string — `register(alias, id)`
fails with the conflict error naming the existing id exactly when the
normalized alias is bound to a *non-empty* id different from `id` (in the
embedding the error result returns no state: the source throws before any
map write, so the maps are unchanged); and on a well-formed state, when the
normalized alias is bound to the same id the call succeeds and returns the
state unchanged. -/
theorem C5_amended (st : RegistryState) (name channelId : JSString) :
    (∀ j, mapGet st.nameToId (normalizeChannelName name) = some j → j ≠ [] →
        j ≠ channelId →
        register st name channelId = Except.error (alreadyRegisteredMsg name j)) ∧
    (∀ e, register st name channelId = Except.error e →
        ∃ j, mapGet st.nameToId (normalizeChannelName name) = some j ∧ j ≠ [] ∧
          j ≠ channelId ∧ e = alreadyRegisteredMsg name j) ∧
    (StrongInv st → mapGet st.nameToId (normalizeChannelName name) = some channelId →
        register st name channelId = Except.ok st) := by
  refine ⟨?_, ?_, ?_⟩
  · intro j hj hne hne2
    unfold register
    simp only [hj]
    rw [if_pos ⟨hne, hne2⟩]
  · intro e he
    unfold register at he
    cases hj : mapGet st.nameToId (normalizeChannelName name) with
    | none =>
        simp only [hj] at he
        simp at he
    | some j =>
        simp only [hj] at he
        by_cases hc : j ≠ [] ∧ j ≠ channelId
        · rw [if_pos hc] at he
          exact ⟨j, rfl, hc.1, hc.2, (Except.error.injEq _ _ ▸ he).symm⟩
        · rw [if_neg hc] at he
          simp at he
  · intro hInv hj
    have hIn : mapGet st.idToName channelId = some (normalizeChannelName name) :=
      hInv.1 _ (mapGet_mem hj)
    unfold register
    simp only [hj]
    rw [if_neg (by simp)]
    unfold registerCommit
    simp only [hIn]
    rw [if_neg (by simp)]
    rw [mapSet_self_of_get hj, mapSet_self_of_get hIn]

/-- C5 witness: conflict against a truthy binding, the same-id no-op on a
well-formed state, and — on a state with an empty-id binding — the
only-if direction of the biconditional ruling out a conflict error. -/
theorem C5_witness :
    register ⟨[("g".data, "i".data)], [("i".data, "g".data)]⟩ "g".data "j".data =
        Except.error (alreadyRegisteredMsg "g".data "i".data) ∧
      register ⟨[("g".data, "i".data)], [("i".data, "g".data)]⟩ "g".data "i".data =
        Except.ok ⟨[("g".data, "i".data)], [("i".data, "g".data)]⟩ ∧
      (register ⟨[("a".data, [])], [([], "a".data)]⟩ "a".data "0x1".data).isOk = true := by
  refine ⟨(C5_amended _ _ _).1 "i".data (by decide) (by decide) (by decide),
    (C5_amended _ _ _).2.2 (by decide) (by decide), ?_⟩
  cases hreg : register ⟨[("a".data, [])], [([], "a".data)]⟩ "a".data "0x1".data with
  | ok st2 => rfl
  | error e =>
      obtain ⟨j, hj, hjne, _, _⟩ :=
        (C5_amended ⟨[("a".data, [])], [([], "a".data)]⟩ "a".data "0x1".data).2.1 e hreg
      have h0 : mapGet (RegistryState.nameToId ⟨[("a".data, [])], [([], "a".data)]⟩)
          (normalizeChannelName "a".data) = some [] := by decide
      exact absurd (Option.some_inj.mp (h0.symm.trans hj)).symm hjne

/-- C6 (counterexample): an alias bound to the empty-string id is present
in the alias-to-id map, yet `resolve` raises the not-found error instead of
returning the bound id, because the guard is `if (!channelId)`. -/
theorem C6_counterexample :
    register emptyRegistry "a".data [] =
        Except.ok ⟨[("a".data, [])], [([], "a".data)]⟩ ∧
      mapGet [("a".data, [])] "a".data = some [] ∧
      resolve ⟨[("a".data, [])], [([], "a".data)]⟩ "a".data =
        Except.error (channelNotFoundMsg "a".data) := by
  decide

/-- C6 (amended): `resolve` passes non-names through unchanged; on a name
it returns the bound id when that id is non-empty, and fails with the
not-found error — whose text ends with the formatted alias — when the
normalized alias is absent *or bound to the empty string*. -/
theorem C6_amended (st : RegistryState) (input : JSString) :
    (isChannelName input = false → resolve st input = Except.ok input) ∧
    (isChannelName input = true →
      (∀ cid, mapGet st.nameToId (normalizeChannelName input) = some cid →
          cid ≠ [] → resolve st input = Except.ok cid) ∧
      (mapGet st.nameToId (normalizeChannelName input) = none ∨
          mapGet st.nameToId (normalizeChannelName input) = some [] →
        resolve st input = Except.error (channelNotFoundMsg input) ∧
          ∃ pre, channelNotFoundMsg input = pre ++ formatChannelName input)) := by
  refine ⟨?_, ?_⟩
  · intro h
    unfold resolve
    rw [h]
    rw [if_pos rfl]
  · intro h
    refine ⟨?_, ?_⟩
    · intro cid hc hne
      unfold resolve
      rw [h]
      rw [if_neg (by simp)]
      simp only [hc]
      rw [if_neg hne]
    · intro hor
      refine ⟨?_, ⟨"Channel name not found: ".data, rfl⟩⟩
      unfold resolve
      rw [h]
      rw [if_neg (by simp)]
      rcases hor with hnone | hsome
      · simp only [hnone]
      · simp only [hsome]
        simp

/-- C6 witness: pass-through, successful lookup, and not-found error. -/
theorem C6_witness :
    resolve ⟨[("g".data, "i".data)], [("i".data, "g".data)]⟩ "0xzz".data =
        Except.ok "0xzz".data ∧
      resolve ⟨[("g".data, "i".data)], [("i".data, "g".data)]⟩ "#G".data =
        Except.ok "i".data ∧
      resolve ⟨[("g".data, "i".data)], [("i".data, "g".data)]⟩ "#nope".data =
        Except.error (channelNotFoundMsg "#nope".data) ∧
      ∃ pre, channelNotFoundMsg "#nope".data = pre ++ formatChannelName "#nope".data :=
  ⟨(C6_amended ⟨[("g".data, "i".data)], [("i".data, "g".data)]⟩ "0xzz".data).1 (by decide),
   ((C6_amended ⟨[("g".data, "i".data)], [("i".data, "g".data)]⟩ "#G".data).2
      (by decide)).1 "i".data (by decide) (by decide),
   (((C6_amended ⟨[("g".data, "i".data)], [("i".data, "g".data)]⟩ "#nope".data).2
      (by decide)).2 (Or.inl (by decide))).1,
   (((C6_amended ⟨[("g".data, "i".data)], [("i".data, "g".data)]⟩ "#nope".data).2
      (by decide)).2 (Or.inl (by decide))).2⟩

/-- In every branch of `registerCommit` the normalized alias ends up bound
to the id. -/
theorem registerCommit_get_self (st : RegistryState) (n cid : JSString) :
    mapGet (registerCommit st n cid).nameToId n = some cid := by
  unfold registerCommit
  cases h : mapGet st.idToName cid with
  | none =>
      simp only [h]
      exact mapGet_mapSet_self
  | some a =>
      simp only [h]
      by_cases hc : a ≠ [] ∧ a ≠ n
      · rw [if_pos hc]
        exact mapGet_mapSet_self
      · rw [if_neg hc]
        exact mapGet_mapSet_self

/-- C9 (counterexample): rename with a new alias whose normalized form
still starts with `#` (here `"##x"`, normalizing to `"#x"`).  The rename
succeeds, but `reverseLookup` formats the *stored* normalized alias and
returns `"#x"`, not the formatted form `"##x"` of the registered alias that
the claim promises. -/
theorem C9_counterexample :
    register emptyRegistry "general".data "0xa".data =
        Except.ok ⟨[("general".data, "0xa".data)], [("0xa".data, "general".data)]⟩ ∧
      register ⟨[("general".data, "0xa".data)], [("0xa".data, "general".data)]⟩
          "##x".data "0xa".data =
        Except.ok ⟨[("#x".data, "0xa".data)], [("0xa".data, "#x".data)]⟩ ∧
      normalizeChannelName "##x".data ≠ normalizeChannelName "general".data ∧
      reverseLookup ⟨[("#x".data, "0xa".data)], [("0xa".data, "#x".data)]⟩ "0xa".data ≠
        some (formatChannelName "##x".data) := by
  decide

/-- C9 (amended): on a well-formed state in which `id` is bound to alias
`a`, a successful `register(b, id)` whose normalized alias is non-empty,
differs from `a`, and is a normalization fixpoint (no residual leading `#`
or whitespace), with `a` itself a normalization fixpoint, retires the old
alias and installs the new one: `reverseLookup(id)` returns the formatted
form of `b`, and `resolve` of the formatted form of `a` fails with the
not-found error. -/
theorem C9_amended (st st' : RegistryState) (hInv : StrongInv st)
    (a channelId b : JSString)
    (ha : mapGet st.idToName channelId = some a)
    (hne : normalizeChannelName b ≠ a)
    (hbne : normalizeChannelName b ≠ [])
    (hfixb : normalizeChannelName (normalizeChannelName b) = normalizeChannelName b)
    (hfixa : normalizeChannelName a = a)
    (hok : register st b channelId = Except.ok st') :
    reverseLookup st' channelId = some (formatChannelName b) ∧
      resolve st' (formatChannelName a) =
        Except.error (channelNotFoundMsg (formatChannelName a)) := by
  obtain ⟨h1, h2, nd1, nd2, hwf⟩ := hInv
  have hmemI : (channelId, a) ∈ st.idToName := mapGet_mem ha
  have hNa : mapGet st.nameToId a = some channelId := h2 _ hmemI
  have hane : a ≠ [] := (hwf _ (mapGet_mem hNa)).1
  cases hEx : mapGet st.nameToId (normalizeChannelName b) with
  | some j =>
      exfalso
      have hjne : j ≠ [] := (hwf _ (mapGet_mem hEx)).2.1
      by_cases hje : j = channelId
      · subst hje
        have hIj := h1 _ (mapGet_mem hEx)
        rw [ha] at hIj
        exact hne (Option.some_inj.mp hIj).symm
      · unfold register at hok
        simp only [hEx] at hok
        rw [if_pos ⟨hjne, hje⟩] at hok
        simp at hok
  | none =>
      unfold register at hok
      simp only [hEx] at hok
      cases hok
      have hcommit : registerCommit st (normalizeChannelName b) channelId =
          ⟨mapSet (mapDelete st.nameToId a) (normalizeChannelName b) channelId,
            mapSet st.idToName channelId (normalizeChannelName b)⟩ := by
        unfold registerCommit
        simp only [ha]
        rw [if_pos ⟨hane, fun he => hne he.symm⟩]
      rw [hcommit]
      constructor
      · unfold reverseLookup
        simp only [mapGet_mapSet_self]
        rw [if_pos hbne]
        unfold formatChannelName
        rw [hfixb]
      · unfold resolve
        have hch : isChannelName (formatChannelName a) = true := by
          unfold formatChannelName isChannelName startsWithHash
          simp
        rw [hch]
        rw [if_neg (by simp)]
        have hnorm : normalizeChannelName (formatChannelName a) = a := by
          unfold formatChannelName
          rw [normalize_format_key a]
          exact hfixa
        have hget : mapGet
            (mapSet (mapDelete st.nameToId a) (normalizeChannelName b) channelId) a =
            none := by
          rw [mapGet_mapSet_ne (fun he => hne he.symm), mapGet_mapDelete_self]
        simp only [hnorm, hget]

/-- C9 witness: a concrete rename. -/
theorem C9_witness :
    reverseLookup ⟨[("m".data, "i".data)], [("i".data, "m".data)]⟩ "i".data =
        some (formatChannelName "m".data) ∧
      resolve ⟨[("m".data, "i".data)], [("i".data, "m".data)]⟩
          (formatChannelName "g".data) =
        Except.error (channelNotFoundMsg (formatChannelName "g".data)) :=
  C9_amended ⟨[("g".data, "i".data)], [("i".data, "g".data)]⟩
    ⟨[("m".data, "i".data)], [("i".data, "m".data)]⟩ (by decide)
    "g".data "i".data "m".data (by decide) (by decide) (by decide) (by decide)
    (by decide) (by decide)

/-- C10 (counterexample): an alias bound to the empty-string id can be
removed not only by `clear()` or a non-merging `import`: a later
`register` of the same alias with a truthy id slips past the conflict guard
(the empty existing id is falsy) and rebinds the alias, removing the entry
the claim calls irremovable. -/
theorem C10_counterexample :
    register emptyRegistry "a".data [] =
        Except.ok ⟨[("a".data, [])], [([], "a".data)]⟩ ∧
      register ⟨[("a".data, [])], [([], "a".data)]⟩ "a".data "0x1".data =
        Except.ok ⟨[("a".data, "0x1".data)], [([], "a".data), ("0x1".data, "a".data)]⟩ ∧
      mapGet [("a".data, "0x1".data)] "a".data = some "0x1".data := by
  decide

/-- C10 (amended): on a well-formed state, for a channel-name alias whose
non-empty normalized form is unbound, `register(alias, "")` succeeds and
grows the alias-to-id map by one; afterwards `resolve` of the alias throws
the not-found error even though the entry is present, and `unregister` of
the alias leaves the state completely unchanged — both because the bound id
is tested for truthiness, not membership.  Unlike the claim's final clause,
the entry can also be removed by a further `register` of the same alias
with a truthy id, which succeeds and rebinds it. -/
theorem C10_amended (st : RegistryState) (hInv : StrongInv st) (nm : JSString)
    (hno : mapGet st.nameToId (normalizeChannelName nm) = none)
    (_hnne : normalizeChannelName nm ≠ [])
    (hch : isChannelName nm = true) :
    register st nm [] =
        Except.ok (registerCommit st (normalizeChannelName nm) []) ∧
      sizeRegistry (registerCommit st (normalizeChannelName nm) []) =
        sizeRegistry st + 1 ∧
      mapGet (registerCommit st (normalizeChannelName nm) []).nameToId
          (normalizeChannelName nm) = some [] ∧
      resolve (registerCommit st (normalizeChannelName nm) []) nm =
        Except.error (channelNotFoundMsg nm) ∧
      unregister (registerCommit st (normalizeChannelName nm) []) nm =
        registerCommit st (normalizeChannelName nm) [] ∧
      ∀ cid, cid ≠ [] →
        register (registerCommit st (normalizeChannelName nm) []) nm cid =
            Except.ok (registerCommit (registerCommit st (normalizeChannelName nm) [])
              (normalizeChannelName nm) cid) ∧
          mapGet (registerCommit (registerCommit st (normalizeChannelName nm) [])
              (normalizeChannelName nm) cid).nameToId (normalizeChannelName nm) =
            some cid := by
  obtain ⟨h1, h2, nd1, nd2, hwf⟩ := hInv
  have hI : mapGet st.idToName [] = none := by
    cases hI0 : mapGet st.idToName [] with
    | none => rfl
    | some x =>
        exfalso
        have hNx : mapGet st.nameToId x = some [] := h2 _ (mapGet_mem hI0)
        exact (hwf _ (mapGet_mem hNx)).2.1 rfl
  have hcommit : registerCommit st (normalizeChannelName nm) [] =
      ⟨mapSet st.nameToId (normalizeChannelName nm) [],
        mapSet st.idToName [] (normalizeChannelName nm)⟩ := by
    unfold registerCommit
    simp only [hI]
  refine ⟨?_, ?_, ?_, ?_, ?_, ?_⟩
  · unfold register
    simp only [hno]
  · rw [hcommit]
    unfold sizeRegistry
    exact length_mapSet_of_get_none hno
  · exact registerCommit_get_self st (normalizeChannelName nm) []
  · unfold resolve
    rw [hch]
    rw [if_neg (by simp)]
    rw [hcommit]
    simp only [mapGet_mapSet_self]
    simp
  · rw [hcommit]
    unfold unregister
    simp only [mapGet_mapSet_self]
    simp
  · intro cid hcid
    constructor
    · unfold register
      simp only [registerCommit_get_self st (normalizeChannelName nm) []]
      rw [if_neg (by simp)]
    · exact registerCommit_get_self _ (normalizeChannelName nm) cid

/-- C10 witness: the empty-id scenario on a one-entry registry. -/
theorem C10_witness :
    register ⟨[("g".data, "i".data)], [("i".data, "g".data)]⟩ "a".data [] =
        Except.ok (registerCommit ⟨[("g".data, "i".data)], [("i".data, "g".data)]⟩
          (normalizeChannelName "a".data) []) ∧
      sizeRegistry (registerCommit ⟨[("g".data, "i".data)], [("i".data, "g".data)]⟩
          (normalizeChannelName "a".data) []) =
        sizeRegistry ⟨[("g".data, "i".data)], [("i".data, "g".data)]⟩ + 1 ∧
      mapGet (registerCommit ⟨[("g".data, "i".data)], [("i".data, "g".data)]⟩
          (normalizeChannelName "a".data) []).nameToId
          (normalizeChannelName "a".data) = some [] ∧
      resolve (registerCommit ⟨[("g".data, "i".data)], [("i".data, "g".data)]⟩
          (normalizeChannelName "a".data) []) "a".data =
        Except.error (channelNotFoundMsg "a".data) ∧
      unregister (registerCommit ⟨[("g".data, "i".data)], [("i".data, "g".data)]⟩
          (normalizeChannelName "a".data) []) "a".data =
        registerCommit ⟨[("g".data, "i".data)], [("i".data, "g".data)]⟩
          (normalizeChannelName "a".data) [] ∧
      ∀ cid, cid ≠ [] →
        register (registerCommit ⟨[("g".data, "i".data)], [("i".data, "g".data)]⟩
            (normalizeChannelName "a".data) []) "a".data cid =
            Except.ok (registerCommit
              (registerCommit ⟨[("g".data, "i".data)], [("i".data, "g".data)]⟩
                (normalizeChannelName "a".data) [])
              (normalizeChannelName "a".data) cid) ∧
          mapGet (registerCommit
              (registerCommit ⟨[("g".data, "i".data)], [("i".data, "g".data)]⟩
                (normalizeChannelName "a".data) [])
              (normalizeChannelName "a".data) cid).nameToId
              (normalizeChannelName "a".data) = some cid :=
  C10_amended ⟨[("g".data, "i".data)], [("i".data, "g".data)]⟩ (by decide)
    "a".data (by decide) (by decide) (by decide)

/-- C8: `SuiNSResolver.resolve` returns non-SuiNS inputs unchanged without
querying the client; otherwise it queries the client exactly once with the
original input verbatim, and — when the client does not itself throw — it
fails with the `ResolutionFailed` message naming the alias exactly when the
record is absent or carries no (truthy) target address, returning the
record's target address otherwise. -/
theorem C8_suins_resolve (client : SuinsClient) (input : JSString) :
    (isSuiNSName input = false → suinsResolve client input = (Except.ok input, [])) ∧
    (isSuiNSName input = true →
      (suinsResolve client input).2 = [input] ∧
      ∀ r, client input = Except.ok r →
        (((suinsResolve client input).1 = Except.error (suinsFailedMsg input)) ↔
          (r = none ∨ ∃ rec, r = some rec ∧
            (rec.targetAddress = none ∨ rec.targetAddress = some []))) ∧
        (∀ rec addr, r = some rec → rec.targetAddress = some addr → addr ≠ [] →
          (suinsResolve client input).1 = Except.ok addr)) := by
  constructor
  · intro h
    unfold suinsResolve
    rw [h]
    rw [if_pos rfl]
  · intro h
    have hred : suinsResolve client input =
        (match client input with
          | Except.error e => (Except.error e, [input])
          | Except.ok none => (Except.error (suinsFailedMsg input), [input])
          | Except.ok (some record) =>
              match record.targetAddress with
              | none => (Except.error (suinsFailedMsg input), [input])
              | some addr =>
                  if addr = [] then (Except.error (suinsFailedMsg input), [input])
                  else (Except.ok addr, [input])) := by
      unfold suinsResolve
      rw [h]
      rw [if_neg (by simp)]
    constructor
    · rw [hred]
      rcases client input with e | r
      · rfl
      · rcases r with _ | ⟨ta⟩
        · rfl
        · rcases ta with _ | addr
          · rfl
          · by_cases ha : addr = []
            · simp [ha]
            · simp [ha]
    · intro r hr
      constructor
      · rw [hred, hr]
        rcases r with _ | ⟨ta⟩
        · simp
        · rcases ta with _ | addr
          · simp
          · by_cases ha : addr = []
            · subst ha
              simp
            · simp [ha]
      · intro rec addr hrec hta ha
        subst hrec
        rw [hred, hr]
        obtain ⟨ta⟩ := rec
        have hta2 : ta = some addr := hta
        subst hta2
        simp [ha]

/-- C8 witness: pass-through without a lookup, and a successful lookup
that forwards the original string. -/
theorem C8_witness :
    suinsResolve (fun _ => Except.ok (some ⟨some "0xt".data⟩)) "0xaddr".data =
        (Except.ok "0xaddr".data, []) ∧
      (suinsResolve (fun _ => Except.ok (some ⟨some "0xt".data⟩))
          "Alice.Sui".data).1 = Except.ok "0xt".data ∧
      (suinsResolve (fun _ => Except.ok (some ⟨some "0xt".data⟩))
          "Alice.Sui".data).2 = ["Alice.Sui".data] :=
  ⟨(C8_suins_resolve _ _).1 (by decide),
   (((C8_suins_resolve _ "Alice.Sui".data).2 (by decide)).2 _ rfl).2
     ⟨some "0xt".data⟩ "0xt".data rfl rfl (by decide),
   (((C8_suins_resolve _ "Alice.Sui".data).2 (by decide))).1⟩

theorem exceptMapList_ok_iff {α β ε : Type} (f : α → Except ε β) :
    ∀ (inputs : List α) (outs : List β),
      exceptMapList f inputs = Except.ok outs ↔
        List.Forall₂ (fun x y => f x = Except.ok y) inputs outs := by
  intro inputs
  induction inputs with
  | nil =>
      intro outs
      constructor
      · intro h
        unfold exceptMapList at h
        cases h
        exact List.Forall₂.nil
      · intro h
        cases h
        rfl
  | cons x xs ih =>
      intro outs
      constructor
      · intro h
        unfold exceptMapList at h
        cases hfx : f x with
        | error e =>
            simp only [hfx] at h
            simp at h
        | ok y =>
            simp only [hfx] at h
            cases hrest : exceptMapList f xs with
            | error e =>
                simp only [hrest] at h
                simp at h
            | ok ys =>
                simp only [hrest] at h
                cases h
                exact List.Forall₂.cons hfx ((ih ys).mp hrest)
      · intro h
        cases h with
        | cons hxy hrest =>
            unfold exceptMapList
            simp only [hxy, (ih _).mpr hrest]

theorem exceptMapList_error_of {α β ε : Type} (f : α → Except ε β) :
    ∀ (pre : List α) (x : α) (post : List α) (e : ε),
      f x = Except.error e → (∀ y ∈ pre, ∃ z, f y = Except.ok z) →
      exceptMapList f (pre ++ x :: post) = Except.error e := by
  intro pre
  induction pre with
  | nil =>
      intro x post e hx _
      rw [List.nil_append]
      unfold exceptMapList
      simp only [hx]
  | cons p pre2 ih =>
      intro x post e hx hpre
      obtain ⟨z, hz⟩ := hpre p (List.mem_cons_self _ _)
      rw [List.cons_append]
      unfold exceptMapList
      simp only [hz, ih x post e hx (fun y hy => hpre y (List.mem_cons_of_mem _ hy))]

theorem exceptMapList_error_elim {α β ε : Type} (f : α → Except ε β) :
    ∀ (inputs : List α) (e : ε), exceptMapList f inputs = Except.error e →
      ∃ pre x post, inputs = pre ++ x :: post ∧ f x = Except.error e ∧
        ∀ y ∈ pre, ∃ z, f y = Except.ok z := by
  intro inputs
  induction inputs with
  | nil =>
      intro e h
      unfold exceptMapList at h
      exact absurd h (by simp)
  | cons x xs ih =>
      intro e h
      unfold exceptMapList at h
      cases hfx : f x with
      | error e2 =>
          simp only [hfx] at h
          cases h
          exact ⟨[], x, xs, by simp, hfx, by simp⟩
      | ok y =>
          simp only [hfx] at h
          cases hrest : exceptMapList f xs with
          | error e2 =>
              simp only [hrest] at h
              cases h
              obtain ⟨pre, x2, post, hsplit, hx2, hpre⟩ := ih _ hrest
              refine ⟨x :: pre, x2, post, by rw [hsplit, List.cons_append], hx2, ?_⟩
              intro y2 hy2
              rcases List.mem_cons.mp hy2 with rfl | hy2
              · exact ⟨y, hfx⟩
              · exact hpre y2 hy2
          | ok ys =>
              simp only [hrest] at h
              simp at h

/-- C7: `resolveMany` on both the local registry and the SuiNS resolver
succeeds exactly when every per-element `resolve` succeeds, in which case
it returns the per-element results in input order (`Forall₂` pairs inputs
with outputs positionally); and it fails exactly with the error of the
first failing element, every earlier element resolving successfully — no
partial result list exists. -/
theorem C7_resolveMany (st : RegistryState) (client : SuinsClient)
    (inputs : List JSString) :
    (∀ outs, resolveMany st inputs = Except.ok outs ↔
        List.Forall₂ (fun x y => resolve st x = Except.ok y) inputs outs) ∧
    (∀ e, resolveMany st inputs = Except.error e ↔
        ∃ pre x post, inputs = pre ++ x :: post ∧
          resolve st x = Except.error e ∧
          ∀ y ∈ pre, ∃ z, resolve st y = Except.ok z) ∧
    (∀ outs, suinsResolveMany client inputs = Except.ok outs ↔
        List.Forall₂ (fun x y => (suinsResolve client x).1 = Except.ok y) inputs outs) ∧
    (∀ e, suinsResolveMany client inputs = Except.error e ↔
        ∃ pre x post, inputs = pre ++ x :: post ∧
          (suinsResolve client x).1 = Except.error e ∧
          ∀ y ∈ pre, ∃ z, (suinsResolve client y).1 = Except.ok z) := by
  refine ⟨fun outs => exceptMapList_ok_iff _ _ _, fun e => ⟨?_, ?_⟩,
    fun outs => exceptMapList_ok_iff _ _ _, fun e => ⟨?_, ?_⟩⟩
  · exact exceptMapList_error_elim _ _ _
  · rintro ⟨pre, x, post, rfl, hx, hpre⟩
    exact exceptMapList_error_of _ pre x post e hx hpre
  · exact exceptMapList_error_elim _ _ _
  · rintro ⟨pre, x, post, rfl, hx, hpre⟩
    exact exceptMapList_error_of _ pre x post e hx hpre

/-- C7 witness: a mixed batch resolves in order; a batch with a missing
name fails with that element's error. -/
theorem C7_witness :
    resolveMany ⟨[("g".data, "i".data)], [("i".data, "g".data)]⟩
        ["#G".data, "0xz".data] = Except.ok ["i".data, "0xz".data] :=
  ((C7_resolveMany ⟨[("g".data, "i".data)], [("i".data, "g".data)]⟩
      (fun _ => Except.ok none) ["#G".data, "0xz".data]).1 _).mpr
    (List.Forall₂.cons (by decide) (List.Forall₂.cons (by decide) List.Forall₂.nil))

/-- C3 (counterexample): `PersistentChannelRegistry` inherits `import` and
`clear` from the local registry without overriding them, so they never
write to the store: after `clear()` the store still holds the stale
pre-clear snapshot, not the serialized `export()` of the current state. -/
theorem C3_counterexample :
    pRegister (initPersistent (some ⟨none, false⟩)) "a".data "0x1".data =
        Except.ok ⟨⟨[("a".data, "0x1".data)], [("0x1".data, "a".data)]⟩,
          some ⟨some (StoredVal.valid [("a".data, "0x1".data)]), false⟩⟩ ∧
      (pClear ⟨⟨[("a".data, "0x1".data)], [("0x1".data, "a".data)]⟩,
          some ⟨some (StoredVal.valid [("a".data, "0x1".data)]), false⟩⟩).storage =
        some ⟨some (StoredVal.valid [("a".data, "0x1".data)]), false⟩ ∧
      exportData (pClear ⟨⟨[("a".data, "0x1".data)], [("0x1".data, "a".data)]⟩,
          some ⟨some (StoredVal.valid [("a".data, "0x1".data)]), false⟩⟩).reg = [] ∧
      StoredVal.valid [("a".data, "0x1".data)] ≠ StoredVal.valid ([] : SMap) := by
  decide

/-- C3 (amended): with a storage handle present, after a successful
`register` or after `unregister` the store holds the serialized `export()`
snapshot of the new in-memory state when the write succeeds; a failing
write is swallowed — the call still succeeds and the in-memory mutation
stands, with the store unchanged.  A failing `register` writes nothing and
propagates its error.  The inherited `import` and `clear` mutate only the
in-memory state and never touch the store. -/
theorem C3_amended (ps : PersistentState) (s : StorageModel)
    (hs : ps.storage = some s) (name channelId : JSString)
    (data : SMap) (merge : Bool) :
    (∀ reg2, register ps.reg name channelId = Except.ok reg2 →
      (s.setFails = false →
          pRegister ps name channelId =
            Except.ok ⟨reg2, some ⟨some (StoredVal.valid (exportData reg2)), false⟩⟩) ∧
      (s.setFails = true →
          pRegister ps name channelId = Except.ok ⟨reg2, some s⟩)) ∧
    (∀ e, register ps.reg name channelId = Except.error e →
        pRegister ps name channelId = Except.error e) ∧
    (s.setFails = false →
        pUnregister ps name =
          ⟨unregister ps.reg name,
            some ⟨some (StoredVal.valid (exportData (unregister ps.reg name))), false⟩⟩) ∧
    (s.setFails = true → pUnregister ps name = ⟨unregister ps.reg name, some s⟩) ∧
    (pImportData ps data merge).storage = ps.storage ∧
    (pImportData ps data merge).reg = importData ps.reg data merge ∧
    (pClear ps).storage = ps.storage ∧
    (pClear ps).reg = emptyRegistry := by
  obtain ⟨reg0, storage0⟩ := ps
  have hs2 : storage0 = some s := hs
  subst hs2
  obtain ⟨contents0, fails0⟩ := s
  refine ⟨?_, ?_, ?_, ?_, rfl, rfl, rfl, rfl⟩
  · intro reg2 hreg
    constructor
    · intro hf
      have hf2 : fails0 = false := hf
      subst hf2
      unfold pRegister
      simp only [hreg]
      rfl
    · intro hf
      have hf2 : fails0 = true := hf
      subst hf2
      unfold pRegister
      simp only [hreg]
      rfl
  · intro e hreg
    unfold pRegister
    simp only [hreg]
  · intro hf
    have hf2 : fails0 = false := hf
    subst hf2
    unfold pUnregister persistWrite
    rfl
  · intro hf
    have hf2 : fails0 = true := hf
    subst hf2
    unfold pUnregister persistWrite
    rfl

/-- C3 witness: a register against writable storage mirrors the snapshot. -/
theorem C3_witness :
    pRegister ⟨⟨[], []⟩, some ⟨none, false⟩⟩ "g".data "i".data =
      Except.ok ⟨⟨[("g".data, "i".data)], [("i".data, "g".data)]⟩,
        some ⟨some (StoredVal.valid [("g".data, "i".data)]), false⟩⟩ :=
  ((C3_amended ⟨⟨[], []⟩, some ⟨none, false⟩⟩ ⟨none, false⟩ rfl "g".data "i".data
      [] true).1 ⟨[("g".data, "i".data)], [("i".data, "g".data)]⟩ (by decide)).1 rfl

/-- C4 (counterexample): when the store write fails (quota) the in-memory
state can run ahead of an absent/unparseable stored snapshot; `reload()`
then does nothing — the guard `if (stored)` / the swallowed parse error
skip the import — so unsaved in-memory changes are kept, not discarded as
the claim's "in every case" requires. -/
theorem C4_counterexample :
    pRegister (initPersistent (some ⟨some StoredVal.invalid, true⟩))
        "a".data "0x1".data =
        Except.ok ⟨⟨[("a".data, "0x1".data)], [("0x1".data, "a".data)]⟩,
          some ⟨some StoredVal.invalid, true⟩⟩ ∧
      pReload ⟨⟨[("a".data, "0x1".data)], [("0x1".data, "a".data)]⟩,
          some ⟨some StoredVal.invalid, true⟩⟩ =
        ⟨⟨[("a".data, "0x1".data)], [("0x1".data, "a".data)]⟩,
          some ⟨some StoredVal.invalid, true⟩⟩ ∧
      ([("a".data, "0x1".data)] : SMap) ≠ [] := by
  decide

/-- C4 (amended): `reload()` replaces the in-memory registry with the
stored snapshot imported with `merge = false` (discarding unsaved changes)
only when the store holds a parseable snapshot; when the entry is absent,
unparseable, or no storage is available, `reload()` leaves the in-memory
state exactly as it is — unsaved changes are kept. -/
theorem C4_amended (ps : PersistentState) :
    (∀ s data, ps.storage = some s → s.contents = some (StoredVal.valid data) →
        pReload ps = ⟨importData ps.reg data false, ps.storage⟩) ∧
    (∀ s, ps.storage = some s →
        s.contents = none ∨ s.contents = some StoredVal.invalid → pReload ps = ps) ∧
    (ps.storage = none → pReload ps = ps) := by
  obtain ⟨reg0, storage0⟩ := ps
  refine ⟨?_, ?_, ?_⟩
  · intro s data hs hc
    have hs2 : storage0 = some s := hs
    subst hs2
    obtain ⟨contents0, fails0⟩ := s
    have hc2 : contents0 = some (StoredVal.valid data) := hc
    subst hc2
    rfl
  · intro s hs hor
    have hs2 : storage0 = some s := hs
    subst hs2
    obtain ⟨contents0, fails0⟩ := s
    rcases hor with hc | hc
    · have hc2 : contents0 = none := hc
      subst hc2
      rfl
    · have hc2 : contents0 = some StoredVal.invalid := hc
      subst hc2
      rfl
  · intro hs
    have hs2 : storage0 = none := hs
    subst hs2
    rfl

/-- C4 witness: reload against a stored snapshot performs the
non-merging import of the snapshot. -/
theorem C4_witness :
    pReload ⟨⟨[("x".data, "0x9".data)], [("0x9".data, "x".data)]⟩,
        some ⟨some (StoredVal.valid [("g".data, "i".data)]), false⟩⟩ =
      ⟨importData ⟨[("x".data, "0x9".data)], [("0x9".data, "x".data)]⟩
          [("g".data, "i".data)] false,
        some ⟨some (StoredVal.valid [("g".data, "i".data)]), false⟩⟩ :=
  (C4_amended ⟨⟨[("x".data, "0x9".data)], [("0x9".data, "x".data)]⟩,
      some ⟨some (StoredVal.valid [("g".data, "i".data)]), false⟩⟩).1
    ⟨some (StoredVal.valid [("g".data, "i".data)]), false⟩ [("g".data, "i".data)]
    rfl rfl
/-- Fidelity checks mirroring the repository's own unit tests
(`addressResolution`/channel-registry suites). -/
theorem unit_test_fidelity :
    isChannelName "#general".data = true ∧
      isChannelName "general".data = true ∧
      isChannelName "0x123".data = false ∧
      isChannelName "".data = false ∧
      normalizeChannelName "#General".data = "general".data ∧
      normalizeChannelName "  #RANDOM  ".data = "random".data ∧
      formatChannelName "  #MyChannel  ".data = "#mychannel".data ∧
      register emptyRegistry "general".data "0xc1".data =
        Except.ok ⟨[("general".data, "0xc1".data)], [("0xc1".data, "general".data)]⟩ ∧
      resolve ⟨[("general".data, "0xc1".data)], [("0xc1".data, "general".data)]⟩
          "#GENERAL".data = Except.ok "0xc1".data ∧
      resolve emptyRegistry "0xabc".data = Except.ok "0xabc".data ∧
      resolve emptyRegistry "#unknown".data =
        Except.error "Channel name not found: #unknown".data := by
  decide
